import Mathlib

/-!
Verification of the EPUB text-locator pipeline of `src/main.py` against its
specification.  The markup parser (BeautifulSoup) is treated as an external
capability that turns bytes into a tree of element and text nodes; `soupOf`
adds the parser's `[document]` pseudo-root object, mirroring
`BeautifulSoup(content, "html.parser")` (which does not insert missing
`html`/`body` elements).  File reading and archive staging are likewise
capabilities: the spine document list is modelled as a list of
(path, parsed content) pairs.
-/

/-- A parsed markup node: a text node (a `NavigableString`) or an element
(a `Tag`) with a tag name and its children in document order. -/
inductive Node where
| text : String → Node
| elem : String → List Node → Node

/-- The `name` of a node: a `Tag`'s tag name; a text node has none
(modelled as `""`, never a valid tag name). -/
def nodeName : Node → String
| .text _ => ""
| .elem nm _ => nm

/-- Whether a node is an element (`Tag`). -/
def isElemNode : Node → Bool
| .text _ => false
| .elem _ _ => true

/-- The soup object built by `BeautifulSoup(content, "html.parser")`: a
pseudo-root named `"[document]"` whose children are the top-level parsed
nodes; it is the last `.parent` reached when walking up from any node. -/
def soupOf (doc : List Node) : Node := .elem "[document]" doc

mutual

/-- The text nodes of a tree in document order (depth-first, left to
right), as returned by `soup.find_all(string=True)` (line 64). -/
def textNodes : Node → List String
| .text s => [s]
| .elem _ cs => textNodesList cs

/-- `textNodes` over a list of sibling nodes, left to right. -/
def textNodesList : List Node → List String
| [] => []
| c :: cs => textNodes c ++ textNodesList cs

end

/-- Python's `hay.find(pat)` on character lists: the least offset at which
`pat` occurs contiguously in `hay`, `none` when absent.  `pat in hay`
(line 65) is `(findSub hay pat).isSome`, and line 67 recomputes the
offset with `element.find(query)`. -/
def findSub (hay pat : List Char) : Option Nat :=
  if pat.isPrefixOf hay then some 0
  else
    match hay with
    | [] => none
    | _ :: t => (findSub t pat).map (· + 1)

/-- The data extracted from the first matching text node: its tree path
from the soup root (child indices), its raw text, and the offset of the
first occurrence of the query in it. -/
structure TextMatch where
  path : List Nat
  text : String
  start : Nat
deriving Repr, DecidableEq

mutual

/-- The loop of lines 64–69: scan the text nodes of a tree in document
order and stop at the first one containing the query, recording the
node (here: its path and raw text) and the first-occurrence offset. -/
def findText (q : List Char) : Node → Option TextMatch
| .text s =>
  match findSub s.toList q with
  | some i => some ⟨[], s, i⟩
  | none => none
| .elem _ cs => findTextList q cs 0

/-- `findText` over a list of sibling nodes starting at child index `i`. -/
def findTextList (q : List Char) : List Node → Nat → Option TextMatch
| [], _ => none
| c :: cs, i =>
  match findText q c with
  | some m => some ⟨i :: m.path, m.text, m.start⟩
  | none => findTextList q cs (i + 1)

end

/-- Resolve a tree path (list of child indices) to the node it addresses. -/
def getNode : Node → List Nat → Option Node
| n, [] => some n
| .text _, _ :: _ => none
| .elem _ cs, i :: rest =>
  match cs[i]? with
  | some c => getNode c rest
  | none => none

/-- Whether a tree path resolves: every step goes through an element with
the child index in range. -/
def validPath : Node → List Nat → Bool
| _, [] => true
| .text _, _ :: _ => false
| .elem _ cs, i :: rest =>
  match cs[i]? with
  | some c => validPath c rest
  | none => false

/-- Whether `x` is an element whose tag name is `nm` — the test applied by
`find_previous_siblings(name)`: only `Tag`s with that name match. -/
def sameTag (x : Node) (nm : String) : Bool :=
  match x with
  | .elem m _ => m == nm
  | .text _ => false

/-- `len(current.find_previous_siblings(current.name)) + 1` (lines 77–78):
the 1-based rank of child `i` of `cs` among its preceding siblings that
are elements sharing its tag name. -/
def siblingOrdinal (cs : List Node) (i : Nat) : Nat :=
  match cs[i]? with
  | some c => 1 + (cs.take i).countP (fun x => sameTag x (nodeName c))
  | none => 0

/-- The tag name and sibling ordinal of child `j` of a parent node
(`("", 0)` when the parent is not an element or `j` is out of range,
which never happens on a resolving path). -/
def childEntry (parent : Option Node) (j : Nat) : String × Nat :=
  match parent with
  | some (.elem _ cs) =>
    (match cs[j]? with
     | some c => (nodeName c, siblingOrdinal cs j)
     | none => ("", 0))
  | _ => ("", 0)

/-- One iteration's observations in the upward walk of lines 76–87: the
tag name and sibling ordinal of the current element, whose reversed tree
path is `rp`.  The soup root (reversed path `[]`) has no siblings, so its
ordinal is `1`. -/
def entryAt (root : Node) : List Nat → String × Nat
| [] => (nodeName root, 1)
| i :: rest => childEntry (getNode root rest.reverse) i

/-- The `while current_element:` loop of lines 76–87: `rp` is the reversed
tree path of the current element, `ep` the `element_path` accumulator
(appended to), `fi` the `file_index` accumulator (`insert(0, ·)` unless
the tag name is the literal `"html"`).  The loop ends after processing
the soup root, whose parent is `None`. -/
def trace_loop (root : Node) : List Nat → List (String × Nat) → List Nat → List (String × Nat) × List Nat
| [], ep, fi =>
  let e := entryAt root []
  (ep ++ [e], if e.1 == "html" then fi else e.2 :: fi)
| i :: rest, ep, fi =>
  let e := entryAt root (i :: rest)
  trace_loop root rest (ep ++ [e]) (if e.1 == "html" then fi else e.2 :: fi)

/-- The successful return value of `traverse_and_trace_query`
(lines 93–101).  `element_path` is kept as (tag name, sibling ordinal)
pairs in root-to-leaf order; the Python code's formatted strings are
produced by `element_path_str` and `file_index_str` below. -/
structure LocateResult where
  spine_index : Nat
  spine_total : Nat
  matched_file : String
  element_path : List (String × Nat)
  file_index : List Nat
  match_start : Nat
  match_end : Nat
deriving Repr, DecidableEq

/-- Lines 72–101: build the result once a text node containing the query
has been found in `doc` at `m.path`.  The upward walk starts at the text
node's immediate parent (`m.path.dropLast`); `element_path` is reversed
at the end (line 88) so it reads root to leaf. -/
def docResult (spine_idx total : Nat) (file_path : String) (doc : List Node) (query : String) (m : TextMatch) : LocateResult :=
  let res := trace_loop (soupOf doc) (m.path.dropLast).reverse [] []
  { spine_index := spine_idx
    spine_total := total
    matched_file := file_path
    element_path := res.1.reverse
    file_index := res.2
    match_start := m.start
    match_end := m.start + query.length }

/-- The spine loop of `traverse_and_trace_query` (lines 54–104): scan the
spine documents in order, keeping the 1-based spine index; return the
built result for the first document with a matching text node, or `none`
("Query not found in the spine.", the sentinel tuple of line 104). -/
def traverse_aux (total : Nat) (query : String) : Nat → List (String × List Node) → Option LocateResult
| _, [] => none
| spine_idx, (file_path, doc) :: rest =>
  match findText query.toList (soupOf doc) with
  | some m => some (docResult (spine_idx + 1) total file_path doc query m)
  | none => traverse_aux total query (spine_idx + 1) rest

/-- `traverse_and_trace_query(spine_files, query)` (lines 54–104), the
locate operation over the parsed spine documents. -/
def traverse_and_trace_query (spine_files : List (String × List Node)) (query : String) : Option LocateResult :=
  traverse_aux spine_files.length query 0 spine_files

/-- Line 79's formatted step. -/
def fmtEntry (e : String × Nat) : String := e.1 ++ "[" ++ toString e.2 ++ "]"

/-- Line 97: `"/".join(element_path)`. -/
def element_path_str (r : LocateResult) : String :=
  String.intercalate "/" (r.element_path.map fmtEntry)

/-- Line 91: `"/".join(map(str, file_index))`. -/
def file_index_str (r : LocateResult) : String :=
  String.intercalate "/" (r.file_index.map toString)

/-- `os.path.join(base_path, href)` for a relative `href`. -/
def os_path_join (base href : String) : String := base ++ "/" ++ href

/-- `map_spine_to_files(manifest, spine, base_path)` (lines 35–37).  The
manifest dict is modelled as an association list; `manifest[item_id]` on a
missing key raises `KeyError(item_id)`, modelled as `.error item_id`, so
the list comprehension fails at the first unresolvable id. -/
def map_spine_to_files (manifest : List (String × String)) (spine : List String) (base_path : String) : Except String (List String) :=
  match spine with
  | [] => .ok []
  | item_id :: rest =>
    match manifest.lookup item_id with
    | some href =>
      match map_spine_to_files manifest rest base_path with
      | .ok files => .ok (os_path_join base_path href :: files)
      | .error e => .error e
    | none => .error item_id

/-- `get_spine_xml_position` (lines 40–51), taking the `package` element's
children: `find_all(recursive=False)` yields the direct children that are
elements; the loop returns the 1-based index of the first child named
`spine`, or `-1` if there is none, each with the total count. -/
def get_spine_xml_position (packageChildren : List Node) : Int × Nat :=
  let package_children := packageChildren.filter isElemNode
  match package_children.findIdx? (fun c => nodeName c == "spine") with
  | some idx => ((idx : Int) + 1, package_children.length)
  | none => (-1, package_children.length)

/-- Stated from the spec (§4.4 element_path): starting from the root of
the fragment and descending along the ancestor chain of the matched text
node, record each ancestor's tag name with its same-tag 1-based sibling
rank.  `ord` is the current node's rank (the root has rank 1); `pp` is the
remaining path down to the text node's immediate parent. -/
def specFrom : Node → Nat → List Nat → List (String × Nat)
| n, ord, [] => [(nodeName n, ord)]
| n, ord, i :: rest =>
  (nodeName n, ord) ::
    (match n with
     | .text _ => []
     | .elem _ cs =>
       match cs[i]? with
       | some c => specFrom c (siblingOrdinal cs i) rest
       | none => [])

/-- Stated from the spec (§4.4 element_path): the root-to-leaf sequence of
(tag name, sibling ordinal) pairs for the ancestors of the node at path
`pp`, the spec-side counterpart of the code's upward walk. -/
def specElementPath (root : Node) (pp : List Nat) : List (String × Nat) :=
  specFrom root 1 pp

/-- The element path as the code computes it (lines 73–88): upward walk
from the node at path `pp`, then reverse. -/
def codeElementPath (root : Node) (pp : List Nat) : List (String × Nat) :=
  (trace_loop root pp.reverse [] []).1.reverse

/-- The observations of the upward walk of lines 76–87, in visit order
(leaf to root): a proof-side reformulation of `trace_loop`. -/
def walkChain (root : Node) : List Nat → List (String × Nat)
| [] => [entryAt root []]
| i :: rest => entryAt root (i :: rest) :: walkChain root rest

/-- The `file_index` contributions of the walk, in final (root-to-leaf)
order: the non-`"html"` entries' ordinals. -/
def walkIndex (root : Node) (rp : List Nat) : List Nat :=
  (((walkChain root rp).filter (fun e => e.1 != "html")).reverse).map Prod.snd

example : textNodes (soupOf [.elem "a" [.text "x", .elem "b" [.text "y"]]]) = ["x", "y"] := rfl

example : findSub "hello world".toList "world".toList = some 6 := rfl

example : findText "y".toList (soupOf [.elem "a" [.text "x", .elem "b" [.text "y"]]]) =
    some ⟨[0, 1, 0], "y", 0⟩ := rfl

example :
    traverse_and_trace_query
      [("OEBPS/ch1.xhtml", [.elem "p" [.text "abc"]]),
       ("OEBPS/ch2.xhtml", [.elem "div" [.elem "p" [.text "Hello world"]]])]
      "world" =
    some { spine_index := 2, spine_total := 2, matched_file := "OEBPS/ch2.xhtml",
           element_path := [("[document]", 1), ("div", 1), ("p", 1)],
           file_index := [1, 1, 1], match_start := 6, match_end := 11 } := rfl

example :
    get_spine_xml_position
      [.elem "metadata" [], .elem "manifest" [], .elem "spine" []] = (3, 3) := rfl

example :
    map_spine_to_files [("c1", "ch1.xhtml"), ("c2", "ch2.xhtml")] ["c1", "c2"] "OEBPS" =
    .ok ["OEBPS/ch1.xhtml", "OEBPS/ch2.xhtml"] := rfl

/-- Unfolding `findSub` on the empty haystack. -/
theorem findSub_nil (pat : List Char) :
    findSub [] pat = if pat.isPrefixOf [] then some 0 else none := rfl

/-- Unfolding `findSub` on a cons haystack. -/
theorem findSub_cons (a : Char) (t pat : List Char) :
    findSub (a :: t) pat =
      if pat.isPrefixOf (a :: t) then some 0 else (findSub t pat).map (· + 1) := rfl

/-- `findSub` on the empty pattern returns offset 0, like Python's
`s.find("")`. -/
theorem findSub_nil_pat (hay : List Char) : findSub hay [] = some 0 := by
  cases hay with
  | nil => rw [findSub_nil]; simp [List.isPrefixOf]
  | cons a t => rw [findSub_cons]; simp [List.isPrefixOf]

/-- A successful `findSub` is a first occurrence: the pattern occurs at
the returned offset and at no earlier offset. -/
theorem findSub_eq_some (hay pat : List Char) (i : Nat)
    (h : findSub hay pat = some i) :
    pat.isPrefixOf (hay.drop i) = true ∧
      ∀ j < i, pat.isPrefixOf (hay.drop j) = false := by
  induction hay generalizing i with
  | nil =>
    rw [findSub_nil] at h
    split at h
    · rename_i hp
      injection h with h0
      subst h0
      refine ⟨hp, ?_⟩
      intro j hj
      exact absurd hj (Nat.not_lt_zero j)
    · simp at h
  | cons a t ih =>
    rw [findSub_cons] at h
    split at h
    · rename_i hp
      injection h with h0
      subst h0
      refine ⟨hp, ?_⟩
      intro j hj
      exact absurd hj (Nat.not_lt_zero j)
    · rename_i hp
      rw [Bool.not_eq_true] at hp
      match t0 : findSub t pat with
      | none => rw [t0] at h; simp at h
      | some i' =>
        rw [t0] at h
        simp only [Option.map_some'] at h
        injection h with h0
        subst h0
        obtain ⟨h1, h2⟩ := ih i' t0
        refine ⟨h1, ?_⟩
        intro j hj
        match j with
        | 0 => simpa using hp
        | k + 1 => exact h2 k (by omega)

/-- Python's `pat in hay` (contiguous-substring test) agrees with
`findSub` succeeding. -/
theorem infix_iff_findSub (hay pat : List Char) :
    pat <:+: hay ↔ (findSub hay pat).isSome = true := by
  induction hay with
  | nil =>
    rw [findSub_nil]
    constructor
    · intro h
      rw [List.infix_nil] at h
      subst h
      simp [List.isPrefixOf]
    · intro h
      split at h
      · rename_i hp
        rw [List.isPrefixOf_iff_prefix] at hp
        exact hp.isInfix
      · simp at h
  | cons a t ih =>
    rw [findSub_cons, List.infix_cons_iff]
    constructor
    · intro h
      rcases h with h | h
      · rw [← List.isPrefixOf_iff_prefix] at h
        simp [h]
      · split
        · simp
        · have h2 := ih.mp h
          match t0 : findSub t pat with
          | none => rw [t0] at h2; simp at h2
          | some i => simp [t0]
    · intro h
      split at h
      · rename_i hp
        rw [List.isPrefixOf_iff_prefix] at hp
        exact Or.inl hp
      · refine Or.inr (ih.mpr ?_)
        match t0 : findSub t pat with
        | none => rw [t0] at h; simp at h
        | some i => simp [t0]

mutual

/-- When the scan of a tree finds nothing, no text node of the tree
contains the query. -/
theorem findText_none (q : List Char) :
    (n : Node) → findText q n = none →
      ∀ t ∈ textNodes n, findSub t.toList q = none
| .text s => by
  intro h t ht
  rw [show textNodes (.text s) = [s] from rfl] at ht
  rw [List.mem_singleton] at ht
  subst ht
  revert h
  rw [show findText q (.text t) =
        (match findSub t.toList q with
         | some i => some ⟨[], t, i⟩
         | none => none) from rfl]
  cases h0 : findSub t.toList q with
  | none => intro _; rfl
  | some i => intro h; simp at h
| .elem nm cs => by
  intro h t ht
  rw [show textNodes (.elem nm cs) = textNodesList cs from rfl] at ht
  exact findTextList_none q cs 0 h t ht

/-- `findText_none` over sibling lists. -/
theorem findTextList_none (q : List Char) :
    (cs : List Node) → (i : Nat) → findTextList q cs i = none →
      ∀ t ∈ textNodesList cs, findSub t.toList q = none
| [], _ => by
  intro _ t ht
  simp [textNodesList] at ht
| c :: cs, i => by
  intro h t ht
  rw [show textNodesList (c :: cs) = textNodes c ++ textNodesList cs from rfl,
      List.mem_append] at ht
  revert h
  cases h0 : findText q c with
  | some m => simp [findTextList, h0]
  | none =>
    intro h
    rw [show findTextList q (c :: cs) i = findTextList q cs (i + 1) from by
          simp [findTextList, h0]] at h
    rcases ht with ht | ht
    · exact findText_none q c h0 t ht
    · exact findTextList_none q cs (i + 1) h t ht

end

mutual

/-- A successful scan returns the first text node (in document order)
containing the query, together with the first-occurrence offset inside
it: all text nodes before it are query-free. -/
theorem findText_some (q : List Char) :
    (n : Node) → (m : TextMatch) → findText q n = some m →
      findSub m.text.toList q = some m.start ∧
      ∃ pre post, textNodes n = pre ++ m.text :: post ∧
        ∀ t ∈ pre, findSub t.toList q = none
| .text s, m => by
  intro h
  rw [show findText q (.text s) =
        (match findSub s.toList q with
         | some i => some ⟨[], s, i⟩
         | none => none) from rfl] at h
  revert h
  cases h0 : findSub s.toList q with
  | none => intro h; simp at h
  | some i =>
    intro h
    injection h with h1
    subst h1
    refine ⟨h0, [], [], rfl, ?_⟩
    intro t ht
    simp at ht
| .elem nm cs, m => by
  intro h
  rw [show findText q (.elem nm cs) = findTextList q cs 0 from rfl] at h
  exact findTextList_some q cs 0 m h

/-- `findText_some` over sibling lists. -/
theorem findTextList_some (q : List Char) :
    (cs : List Node) → (i : Nat) → (m : TextMatch) → findTextList q cs i = some m →
      findSub m.text.toList q = some m.start ∧
      ∃ pre post, textNodesList cs = pre ++ m.text :: post ∧
        ∀ t ∈ pre, findSub t.toList q = none
| [], i, m => by intro h; simp [findTextList] at h
| c :: cs, i, m => by
  intro h
  rw [show findTextList q (c :: cs) i =
        (match findText q c with
         | some mc => some ⟨i :: mc.path, mc.text, mc.start⟩
         | none => findTextList q cs (i + 1)) from rfl] at h
  revert h
  cases h0 : findText q c with
  | some mc =>
    intro h
    injection h with h1
    subst h1
    obtain ⟨g1, pre, post, g2, g3⟩ := findText_some q c mc h0
    refine ⟨g1, pre, post ++ textNodesList cs, ?_, g3⟩
    rw [show textNodesList (c :: cs) = textNodes c ++ textNodesList cs from rfl, g2]
    simp
  | none =>
    intro h
    obtain ⟨g1, pre, post, g2, g3⟩ := findTextList_some q cs (i + 1) m h
    refine ⟨g1, textNodes c ++ pre, post, ?_, ?_⟩
    · rw [show textNodesList (c :: cs) = textNodes c ++ textNodesList cs from rfl, g2]
      simp
    · intro t ht
      rw [List.mem_append] at ht
      rcases ht with ht | ht
      · exact findText_none q c h0 t ht
      · exact g3 t ht

end

mutual

/-- The path recorded by a successful scan addresses the matched text
node, and it resolves through elements all the way down. -/
theorem findText_path (q : List Char) :
    (n : Node) → (m : TextMatch) → findText q n = some m →
      getNode n m.path = some (.text m.text) ∧ validPath n m.path = true
| .text s, m => by
  intro h
  rw [show findText q (.text s) =
        (match findSub s.toList q with
         | some i => some ⟨[], s, i⟩
         | none => none) from rfl] at h
  revert h
  cases h0 : findSub s.toList q with
  | none => intro h; simp at h
  | some i =>
    intro h
    injection h with h1
    subst h1
    exact ⟨rfl, rfl⟩
| .elem nm cs, m => by
  intro h
  rw [show findText q (.elem nm cs) = findTextList q cs 0 from rfl] at h
  obtain ⟨j, c, rest, hj, hpath, hget, hvalid⟩ := findTextList_path q cs 0 m h
  rw [hpath]
  simp only [Nat.zero_add]
  constructor
  · rw [show getNode (.elem nm cs) (j :: rest) =
          (match cs[j]? with | some c => getNode c rest | none => none) from rfl, hj]
    exact hget
  · rw [show validPath (.elem nm cs) (j :: rest) =
          (match cs[j]? with | some c => validPath c rest | none => false) from rfl, hj]
    exact hvalid

/-- `findText_path` over sibling lists: the head of the recorded path is
the matched child's index. -/
theorem findTextList_path (q : List Char) :
    (cs : List Node) → (i : Nat) → (m : TextMatch) → findTextList q cs i = some m →
      ∃ j c rest, cs[j]? = some c ∧ m.path = (i + j) :: rest ∧
        getNode c rest = some (.text m.text) ∧ validPath c rest = true
| [], i, m => by intro h; simp [findTextList] at h
| c :: cs, i, m => by
  intro h
  rw [show findTextList q (c :: cs) i =
        (match findText q c with
         | some mc => some ⟨i :: mc.path, mc.text, mc.start⟩
         | none => findTextList q cs (i + 1)) from rfl] at h
  revert h
  cases h0 : findText q c with
  | some mc =>
    intro h
    injection h with h1
    subst h1
    obtain ⟨hget, hvalid⟩ := findText_path q c mc h0
    exact ⟨0, c, mc.path, by simp, rfl, hget, hvalid⟩
  | none =>
    intro h
    obtain ⟨j, c', rest, hj, hpath, hget, hvalid⟩ := findTextList_path q cs (i + 1) m h
    refine ⟨j + 1, c', rest, by simpa using hj, ?_, hget, hvalid⟩
    rw [hpath]
    have harith : i + 1 + j = i + (j + 1) := by omega
    rw [harith]

end

/-- The upward-walk loop in terms of its visit-order observations: it
appends the chain to `element_path` and prepends the non-`"html"`
ordinals (root first) to `file_index`. -/
theorem trace_loop_eq (root : Node) : ∀ (rp : List Nat) (ep : List (String × Nat)) (fi : List Nat),
    trace_loop root rp ep fi = (ep ++ walkChain root rp, walkIndex root rp ++ fi) := by
  intro rp
  induction rp with
  | nil =>
    intro ep fi
    rw [show trace_loop root [] ep fi =
          (ep ++ [entryAt root []],
           if (entryAt root []).1 == "html" then fi
           else (entryAt root []).2 :: fi) from rfl]
    rw [show walkChain root [] = [entryAt root []] from rfl]
    unfold walkIndex
    rw [show walkChain root [] = [entryAt root []] from rfl]
    cases h : (entryAt root []).1 == "html" with
    | true => simp [List.filter_cons, bne, h]
    | false => simp [List.filter_cons, bne, h]
  | cons i rest ih =>
    intro ep fi
    rw [show trace_loop root (i :: rest) ep fi =
          trace_loop root rest (ep ++ [entryAt root (i :: rest)])
            (if (entryAt root (i :: rest)).1 == "html" then fi
             else (entryAt root (i :: rest)).2 :: fi) from rfl]
    rw [ih]
    rw [show walkChain root (i :: rest) =
          entryAt root (i :: rest) :: walkChain root rest from rfl]
    unfold walkIndex
    rw [show walkChain root (i :: rest) =
          entryAt root (i :: rest) :: walkChain root rest from rfl]
    cases h : (entryAt root (i :: rest)).1 == "html" with
    | true => simp [List.filter_cons, bne, h]
    | false => simp [List.filter_cons, bne, h]

/-- The element path returned for a match at parent path `pp` is the
reversed walk chain. -/
theorem docResult_element_path (spine_idx total : Nat) (fp : String) (doc : List Node)
    (query : String) (m : TextMatch) :
    (docResult spine_idx total fp doc query m).element_path =
      (walkChain (soupOf doc) (m.path.dropLast).reverse).reverse := by
  unfold docResult
  rw [trace_loop_eq]
  simp

/-- The file index returned for a match at parent path `pp` is the walk's
non-`"html"` ordinals in root-to-leaf order. -/
theorem docResult_file_index (spine_idx total : Nat) (fp : String) (doc : List Node)
    (query : String) (m : TextMatch) :
    (docResult spine_idx total fp doc query m).file_index =
      walkIndex (soupOf doc) (m.path.dropLast).reverse := by
  unfold docResult
  rw [trace_loop_eq]
  simp

/-- `file_index` is obtained from the root-to-leaf element path by
dropping the entries whose tag name is the literal `"html"` and keeping
only the ordinals. -/
theorem walkIndex_eq_filter (root : Node) (rp : List Nat) :
    walkIndex root rp =
      (((walkChain root rp).reverse).filter (fun e => e.1 != "html")).map Prod.snd := by
  unfold walkIndex
  rw [List.filter_reverse]

/-- Counting split of a list of path entries by the `"html"` tag test. -/
theorem length_filter_html (l : List (String × Nat)) :
    l.length = (l.filter (fun e => e.1 != "html")).length +
      l.countP (fun e => e.1 == "html") := by
  induction l with
  | nil => rfl
  | cons e l ih =>
    simp only [List.filter_cons, List.countP_cons, List.length_cons]
    cases h : e.1 == "html" with
    | true =>
      have hp : (e.1 != "html") = false := by
        show (!(e.1 == "html")) = false
        rw [h]
        rfl
      rw [hp]
      simp only [Bool.false_eq_true, if_false, h, if_true]
      omega
    | false =>
      have hp : (e.1 != "html") = true := by
        show (!(e.1 == "html")) = true
        rw [h]
        rfl
      rw [hp]
      simp only [if_true, List.length_cons, h, Bool.false_eq_true, if_false]
      omega

/-- The upward walk always ends at the soup root, so the root-to-leaf
chain always starts with the root's entry. -/
theorem walkChain_reverse_head (root : Node) (rp : List Nat) :
    (walkChain root rp).reverse.head? = some (entryAt root []) := by
  induction rp with
  | nil => rfl
  | cons i rest ih =>
    rw [show walkChain root (i :: rest) =
          entryAt root (i :: rest) :: walkChain root rest from rfl,
        List.reverse_cons]
    cases hrev : (walkChain root rest).reverse with
    | nil => rw [hrev] at ih; simp at ih
    | cons x xs =>
      rw [hrev] at ih
      rw [List.head?_cons] at ih
      injection ih with ih0
      subst ih0
      simp
/-- The file index of a locate over a soup always starts with the
pseudo-root's ordinal `1`: `"[document]" != "html"`, so the exclusion
never removes the parser's root. -/
theorem walkIndex_head_soup (doc : List Node) (rp : List Nat) :
    (walkIndex (soupOf doc) rp).head? = some 1 := by
  unfold walkIndex
  rw [← List.filter_reverse, List.head?_map]
  have h := walkChain_reverse_head (soupOf doc) rp
  cases hrev : (walkChain (soupOf doc) rp).reverse with
  | nil => rw [hrev] at h; simp at h
  | cons x xs =>
    rw [hrev] at h
    rw [List.head?_cons] at h
    injection h with h0
    subst h0
    rw [List.filter_cons]
    rw [show ((entryAt (soupOf doc) []).1 != "html") = true from rfl]
    simp only [if_true, List.head?_cons, Option.map_some']
    rfl

/-- Prefix steps of a resolving path also resolve. -/
theorem validPath_append (p : List Nat) : ∀ (n : Node) (q : List Nat),
    validPath n (p ++ q) = true → validPath n p = true := by
  induction p with
  | nil => intro n q _; cases n <;> rfl
  | cons i rest ih =>
    intro n q h
    match n with
    | .text s => rw [show validPath (.text s) ((i :: rest) ++ q) = false from rfl] at h; simp at h
    | .elem nm cs =>
      rw [show validPath (.elem nm cs) ((i :: rest) ++ q) =
            (match cs[i]? with
             | some c => validPath c (rest ++ q)
             | none => false) from rfl] at h
      rw [show validPath (.elem nm cs) (i :: rest) =
            (match cs[i]? with
             | some c => validPath c rest
             | none => false) from rfl]
      revert h
      cases hc : cs[i]? with
      | none => intro h; simp at h
      | some c => intro h; exact ih c q h

/-- Appending one step to the descent: the spec-side path of `qq ++ [j]`
extends the spec-side path of `qq` by the entry of the node at `qq ++ [j]`,
computed from its parent's child list. -/
theorem specFrom_snoc : ∀ (qq : List Nat) (n : Node) (ord j : Nat),
    validPath n (qq ++ [j]) = true →
    specFrom n ord (qq ++ [j]) = specFrom n ord qq ++ [childEntry (getNode n qq) j] := by
  intro qq
  induction qq with
  | nil =>
    intro n ord j hv
    match n with
    | .text s => rw [show validPath (.text s) ([] ++ [j]) = false from rfl] at hv; simp at hv
    | .elem nm cs =>
      rw [show validPath (.elem nm cs) ([] ++ [j]) =
            (match cs[j]? with
             | some c => validPath c []
             | none => false) from rfl] at hv
      revert hv
      cases hc : cs[j]? with
      | none => intro hv; simp at hv
      | some c =>
        intro _
        rw [show specFrom (.elem nm cs) ord ([] ++ [j]) =
              (nm, ord) ::
                (match cs[j]? with
                 | some c => specFrom c (siblingOrdinal cs j) []
                 | none => []) from rfl, hc]
        rw [show childEntry (getNode (.elem nm cs) []) j =
              (match cs[j]? with
               | some c => (nodeName c, siblingOrdinal cs j)
               | none => ("", 0)) from rfl, hc]
        rfl
  | cons i qq' ih =>
    intro n ord j hv
    match n with
    | .text s => rw [show validPath (.text s) ((i :: qq') ++ [j]) = false from rfl] at hv; simp at hv
    | .elem nm cs =>
      rw [show validPath (.elem nm cs) ((i :: qq') ++ [j]) =
            (match cs[i]? with
             | some c => validPath c (qq' ++ [j])
             | none => false) from rfl] at hv
      revert hv
      cases hc : cs[i]? with
      | none => intro hv; simp at hv
      | some c =>
        intro hv
        rw [show specFrom (.elem nm cs) ord ((i :: qq') ++ [j]) =
              (nm, ord) ::
                (match cs[i]? with
                 | some c => specFrom c (siblingOrdinal cs i) (qq' ++ [j])
                 | none => []) from rfl, hc]
        rw [show specFrom (.elem nm cs) ord (i :: qq') =
              (nm, ord) ::
                (match cs[i]? with
                 | some c => specFrom c (siblingOrdinal cs i) qq'
                 | none => []) from rfl, hc]
        have hg : getNode (Node.elem nm cs) (i :: qq') = getNode c qq' := by
          rw [show getNode (Node.elem nm cs) (i :: qq') =
                (match cs[i]? with
                 | some c => getNode c qq'
                 | none => none) from rfl, hc]
        rw [hg]
        exact congrArg (fun l => (nm, ord) :: l) (ih c (siblingOrdinal cs i) j hv)

/-- The upward walk of the code observes, in reverse, exactly the
spec-side root-to-leaf descent. -/
theorem walkChain_eq_spec (root : Node) : ∀ (rp : List Nat),
    validPath root rp.reverse = true →
    walkChain root rp = (specFrom root 1 rp.reverse).reverse := by
  intro rp
  induction rp with
  | nil => intro _; rfl
  | cons j rest ih =>
    intro hv
    rw [show walkChain root (j :: rest) =
          entryAt root (j :: rest) :: walkChain root rest from rfl]
    rw [List.reverse_cons] at hv ⊢
    rw [specFrom_snoc rest.reverse root 1 j hv]
    rw [List.reverse_append]
    rw [ih (validPath_append rest.reverse root [j] hv)]
    rw [show entryAt root (j :: rest) = childEntry (getNode root rest.reverse) j from rfl]
    simp

/-- Refinement: the element path computed by the code's upward walk (walk
up, collect, reverse) equals the spec's root-to-leaf descent with
same-tag sibling ranks. -/
theorem codeElementPath_eq_spec (root : Node) (pp : List Nat)
    (hv : validPath root pp = true) :
    codeElementPath root pp = specElementPath root pp := by
  unfold codeElementPath specElementPath
  rw [trace_loop_eq]
  simp only [List.nil_append]
  rw [walkChain_eq_spec root pp.reverse (by simpa using hv)]
  simp

/-- Skipping a document in which the scan finds nothing. -/
theorem traverse_aux_skip (total : Nat) (query : String) (i : Nat) (fp : String)
    (doc : List Node) (rest : List (String × List Node))
    (h : findText query.toList (soupOf doc) = none) :
    traverse_aux total query i ((fp, doc) :: rest) = traverse_aux total query (i + 1) rest := by
  rw [show traverse_aux total query i ((fp, doc) :: rest) =
        (match findText query.toList (soupOf doc) with
         | some m => some (docResult (i + 1) total fp doc query m)
         | none => traverse_aux total query (i + 1) rest) from rfl, h]

/-- Stopping at the first document in which the scan finds a match. -/
theorem traverse_aux_hit (total : Nat) (query : String) (i : Nat) (fp : String)
    (doc : List Node) (rest : List (String × List Node)) (m : TextMatch)
    (h : findText query.toList (soupOf doc) = some m) :
    traverse_aux total query i ((fp, doc) :: rest) =
      some (docResult (i + 1) total fp doc query m) := by
  rw [show traverse_aux total query i ((fp, doc) :: rest) =
        (match findText query.toList (soupOf doc) with
         | some m => some (docResult (i + 1) total fp doc query m)
         | none => traverse_aux total query (i + 1) rest) from rfl, h]

/-- If every document before position `d` is query-free and the scan
matches in the document at `d`, the spine loop returns the result built
from that document, with the 1-based spine index `i + d + 1`. -/
theorem traverse_aux_first : ∀ (files : List (String × List Node))
    (d i total : Nat) (query : String) (fp : String) (doc : List Node) (m : TextMatch),
    files[d]? = some (fp, doc) →
    (∀ j fd, j < d → files[j]? = some fd → findText query.toList (soupOf fd.2) = none) →
    findText query.toList (soupOf doc) = some m →
    traverse_aux total query i files = some (docResult (i + d + 1) total fp doc query m) := by
  intro files
  induction files with
  | nil => intro d i total query fp doc m hd; simp at hd
  | cons p rest ih =>
    intro d i total query fp doc m hd hskip hm
    obtain ⟨fp0, doc0⟩ := p
    match d with
    | 0 =>
      rw [List.getElem?_cons_zero] at hd
      injection hd with hd0
      injection hd0 with hd1 hd2
      subst hd1
      subst hd2
      exact traverse_aux_hit total query i _ _ rest m hm
    | d' + 1 =>
      have h0 : findText query.toList (soupOf doc0) = none :=
        hskip 0 (fp0, doc0) (by omega) (by rw [List.getElem?_cons_zero])
      rw [traverse_aux_skip total query i fp0 doc0 rest h0]
      have hrec := ih d' (i + 1) total query fp doc m (by simpa using hd)
        (fun j fd hj hfd => hskip (j + 1) fd (by omega) (by simpa using hfd)) hm
      rw [hrec]
      have harith : i + 1 + d' + 1 = i + (d' + 1) + 1 := by omega
      rw [harith]

/-- Inversion: a successful spine loop comes from some document position
whose scan matched. -/
theorem traverse_aux_some (total : Nat) (query : String) : ∀ (files : List (String × List Node))
    (i : Nat) (r : LocateResult),
    traverse_aux total query i files = some r →
    ∃ d fp doc m, files[d]? = some (fp, doc) ∧
      findText query.toList (soupOf doc) = some m ∧
      r = docResult (i + d + 1) total fp doc query m := by
  intro files
  induction files with
  | nil => intro i r h; simp [traverse_aux] at h
  | cons p rest ih =>
    intro i r h
    obtain ⟨fp0, doc0⟩ := p
    revert h
    cases h0 : findText query.toList (soupOf doc0) with
    | some m =>
      intro h
      rw [traverse_aux_hit total query i fp0 doc0 rest m h0] at h
      injection h with h1
      refine ⟨0, fp0, doc0, m, by rw [List.getElem?_cons_zero], h0, ?_⟩
      rw [← h1]
    | none =>
      intro h
      rw [traverse_aux_skip total query i fp0 doc0 rest h0] at h
      obtain ⟨d, fp, doc, m, h1, h2, h3⟩ := ih (i + 1) r h
      refine ⟨d + 1, fp, doc, m, by simpa using h1, h2, ?_⟩
      rw [h3]
      have harith : i + 1 + d + 1 = i + (d + 1) + 1 := by omega
      rw [harith]

/-- When every document is query-free, the spine loop reports not-found. -/
theorem traverse_aux_none (total : Nat) (query : String) : ∀ (files : List (String × List Node))
    (i : Nat),
    (∀ fd ∈ files, findText query.toList (soupOf fd.2) = none) →
    traverse_aux total query i files = none := by
  intro files
  induction files with
  | nil => intro i _; rfl
  | cons p rest ih =>
    intro i hall
    obtain ⟨fp0, doc0⟩ := p
    rw [traverse_aux_skip total query i fp0 doc0 rest (hall (fp0, doc0) (by simp))]
    exact ih (i + 1) (fun fd hfd => hall fd (by simp [hfd]))

/-- In a list split two ways around elements satisfying `P` with clean
prefixes, the two distinguished elements coincide (first occurrence is
unique). -/
theorem first_split_unique {α : Type} (P : α → Prop) : ∀ (p1 : List α) (s1 p2 s2 : List α) (x y : α),
    p1 ++ x :: s1 = p2 ++ y :: s2 → P x → P y →
    (∀ a ∈ p1, ¬ P a) → (∀ a ∈ p2, ¬ P a) → x = y := by
  intro p1
  induction p1 with
  | nil =>
    intro s1 p2 s2 x y heq hx hy _ hp2
    match p2 with
    | [] =>
      rw [List.nil_append, List.nil_append] at heq
      injection heq with h1 _
    | b :: p2' =>
      rw [List.nil_append, List.cons_append] at heq
      injection heq with h1 _
      subst h1
      exact absurd hx (hp2 x (by simp))
  | cons a p1' ih =>
    intro s1 p2 s2 x y heq hx hy hp1 hp2
    match p2 with
    | [] =>
      rw [List.nil_append, List.cons_append] at heq
      injection heq with h1 _
      subst h1
      exact absurd hy (hp1 a (by simp))
    | b :: p2' =>
      rw [List.cons_append, List.cons_append] at heq
      injection heq with h1 h2
      exact ih s1 p2' s2 x y h2 hx hy
        (fun c hc => hp1 c (by simp [hc]))
        (fun c hc => hp2 c (by simp [hc]))

/-- An element found by position is a member. -/
theorem mem_of_getElem_opt {α : Type} {l : List α} {j : Nat} {a : α}
    (h : l[j]? = some a) : a ∈ l := by
  obtain ⟨hlt, hget⟩ := List.getElem?_eq_some.mp h
  exact hget ▸ List.getElem_mem hlt

/-- `findIdx?` misses a list none of whose elements satisfy the test. -/
theorem findIdx?_clean {α : Type} (p : α → Bool) : ∀ (l : List α) (i : Nat),
    (∀ a ∈ l, p a = false) → List.findIdx? p l i = none := by
  intro l
  induction l with
  | nil => intro i _; exact List.findIdx?_nil
  | cons a l ih =>
    intro i h
    rw [List.findIdx?_cons, h a (by simp)]
    simp only [Bool.false_eq_true, if_false]
    exact ih (i + 1) (fun b hb => h b (by simp [hb]))

/-- `findIdx?` on a split list with a clean front finds the distinguished
element's position. -/
theorem findIdx?_first {α : Type} (p : α → Bool) : ∀ (pre : List α) (x : α) (post : List α) (i : Nat),
    p x = true → (∀ a ∈ pre, p a = false) →
    List.findIdx? p (pre ++ x :: post) i = some (i + pre.length) := by
  intro pre
  induction pre with
  | nil =>
    intro x post i hx _
    rw [List.nil_append, List.findIdx?_cons, hx]
    simp
  | cons a pre' ih =>
    intro x post i hx hpre
    rw [List.cons_append, List.findIdx?_cons, hpre a (by simp)]
    simp only [Bool.false_eq_true, if_false]
    rw [ih x post (i + 1) hx (fun b hb => hpre b (by simp [hb]))]
    rw [List.length_cons]
    congr 1
    omega

/-- Claim C5: `get_spine_xml_position` enumerates the package element's
direct children in document order and returns the 1-based ordinal of the
first child element named `spine` with the total direct-child count; when
no `spine` child exists it returns the sentinel ordinal `-1` with the
true total count, not an error. -/
theorem C5_spine_xml_position (packageChildren : List Node) :
    (∀ pre el post, packageChildren.filter isElemNode = pre ++ el :: post →
        nodeName el = "spine" → (∀ c ∈ pre, nodeName c ≠ "spine") →
        get_spine_xml_position packageChildren =
          ((pre.length : Int) + 1, (packageChildren.filter isElemNode).length)) ∧
    ((∀ c ∈ packageChildren.filter isElemNode, nodeName c ≠ "spine") →
        get_spine_xml_position packageChildren =
          (-1, (packageChildren.filter isElemNode).length)) := by
  constructor
  · intro pre el post hsplit hel hpre
    simp only [get_spine_xml_position]
    rw [hsplit,
        findIdx?_first _ pre el post 0 (by simp [hel]) (fun c hc => by simp [hpre c hc])]
    simp
  · intro hall
    simp only [get_spine_xml_position]
    rw [findIdx?_clean _ _ 0 (fun c hc => by simp [hall c hc])]

/-- Witness for C5 at concrete package children: `spine` as 3rd of 3
children, and a package with no `spine` child at all. -/
theorem C5_spine_xml_position_witness :
    get_spine_xml_position
        [Node.elem "metadata" [], Node.elem "manifest" [], Node.elem "spine" []] = (3, 3) ∧
    get_spine_xml_position [Node.elem "metadata" [], Node.text "x"] = (-1, 1) := by
  constructor
  · have h := (C5_spine_xml_position
        [Node.elem "metadata" [], Node.elem "manifest" [], Node.elem "spine" []]).1
        [Node.elem "metadata" [], Node.elem "manifest" []] (Node.elem "spine" []) []
        rfl rfl (by decide)
    rw [h]
    rfl
  · have h := (C5_spine_xml_position [Node.elem "metadata" [], Node.text "x"]).2
        (by decide)
    rw [h]
    decide

/-- All-resolvable spines map to the pointwise joined paths. -/
theorem map_spine_ok (manifest : List (String × String)) (base_path : String) :
    ∀ (spine : List String),
    (∀ id ∈ spine, (manifest.lookup id).isSome = true) →
    map_spine_to_files manifest spine base_path =
      .ok (spine.map fun id => os_path_join base_path ((manifest.lookup id).getD "")) := by
  intro spine
  induction spine with
  | nil => intro _; rfl
  | cons a l ih =>
    intro h
    have ha := h a (by simp)
    cases hl : manifest.lookup a with
    | none => rw [hl] at ha; simp at ha
    | some href =>
      rw [show map_spine_to_files manifest (a :: l) base_path =
            (match manifest.lookup a with
             | some href =>
               (match map_spine_to_files manifest l base_path with
                | .ok files => .ok (os_path_join base_path href :: files)
                | .error e => .error e)
             | none => .error a) from rfl, hl]
      rw [ih (fun id hid => h id (by simp [hid]))]
      simp [List.map_cons, hl]

/-- Claim C6: the spine document list is index-aligned 1:1 with the
spine: it has the same length and, position by position (duplicates
preserved in place), holds the manifest's href for the id at that
position joined to the package descriptor's containing directory. -/
theorem C6_spine_document_list (manifest : List (String × String)) (spine : List String)
    (base_path : String)
    (h : ∀ id ∈ spine, (manifest.lookup id).isSome = true) :
    ∃ l, map_spine_to_files manifest spine base_path = .ok l ∧
      l.length = spine.length ∧
      ∀ (j : Nat) (id : String), spine[j]? = some id →
        ∃ href, manifest.lookup id = some href ∧
          l[j]? = some (os_path_join base_path href) := by
  refine ⟨_, map_spine_ok manifest base_path spine h, by simp, ?_⟩
  intro j id hj
  have hsome := h id (mem_of_getElem_opt hj)
  cases hl : manifest.lookup id with
  | none => rw [hl] at hsome; simp at hsome
  | some href =>
    refine ⟨href, rfl, ?_⟩
    rw [List.getElem?_map, hj]
    simp [hl]

/-- Witness for C6 at a concrete manifest and spine. -/
theorem C6_spine_document_list_witness :
    ∃ l, map_spine_to_files [("c1", "ch1.xhtml"), ("c2", "ch2.xhtml")] ["c1", "c2"] "OEBPS" =
        .ok l ∧
      l.length = (["c1", "c2"] : List String).length ∧
      ∀ (j : Nat) (id : String), (["c1", "c2"] : List String)[j]? = some id →
        ∃ href, List.lookup id [("c1", "ch1.xhtml"), ("c2", "ch2.xhtml")] = some href ∧
          l[j]? = some (os_path_join "OEBPS" href) :=
  C6_spine_document_list [("c1", "ch1.xhtml"), ("c2", "ch2.xhtml")] ["c1", "c2"] "OEBPS"
    (by decide)

/-- Resolution errors out at the first spine id missing from the
manifest, carrying that id. -/
theorem map_spine_first_missing (manifest : List (String × String)) (base_path : String) :
    ∀ (pre : List String) (item_id : String) (post : List String),
    (∀ j ∈ pre, (manifest.lookup j).isSome = true) →
    manifest.lookup item_id = none →
    map_spine_to_files manifest (pre ++ item_id :: post) base_path = .error item_id := by
  intro pre
  induction pre with
  | nil =>
    intro item_id post _ hid
    rw [List.nil_append]
    rw [show map_spine_to_files manifest (item_id :: post) base_path =
          (match manifest.lookup item_id with
           | some href =>
             (match map_spine_to_files manifest post base_path with
              | .ok files => .ok (os_path_join base_path href :: files)
              | .error e => .error e)
           | none => .error item_id) from rfl, hid]
  | cons a pre' ih =>
    intro item_id post hpre hid
    have ha := hpre a (by simp)
    cases hl : manifest.lookup a with
    | none => rw [hl] at ha; simp at ha
    | some href =>
      rw [List.cons_append]
      rw [show map_spine_to_files manifest (a :: (pre' ++ item_id :: post)) base_path =
            (match manifest.lookup a with
             | some href =>
               (match map_spine_to_files manifest (pre' ++ item_id :: post) base_path with
                | .ok files => .ok (os_path_join base_path href :: files)
                | .error e => .error e)
             | none => .error a) from rfl, hl]
      rw [ih item_id post (fun j hj => hpre j (by simp [hj])) hid]

/-- Claim C7: a spine id absent from the manifest makes spine resolution
fail with an error carrying exactly that id (the first unresolvable one);
no spine document list is produced and nothing is skipped. -/
theorem C7_unresolved_spine_item (manifest : List (String × String)) (base_path : String)
    (pre : List String) (item_id : String) (post : List String)
    (hpre : ∀ j ∈ pre, (manifest.lookup j).isSome = true)
    (hid : manifest.lookup item_id = none) :
    map_spine_to_files manifest (pre ++ item_id :: post) base_path = .error item_id ∧
    ∀ l, map_spine_to_files manifest (pre ++ item_id :: post) base_path ≠ .ok l := by
  have herr := map_spine_first_missing manifest base_path pre item_id post hpre hid
  refine ⟨herr, ?_⟩
  intro l hl
  rw [herr] at hl
  simp at hl

/-- Witness for C7: spine referencing `cX` which the manifest lacks. -/
theorem C7_unresolved_spine_item_witness :
    map_spine_to_files [("c1", "ch1.xhtml")] ["c1", "cX"] "OEBPS" = .error "cX" :=
  (C7_unresolved_spine_item [("c1", "ch1.xhtml")] "OEBPS" ["c1"] "cX" []
    (by decide) (by decide)).1

/-- Claim C8: when the query occurs in no spine document's text nodes,
the locate operation returns the explicit not-found outcome (`none`,
modelling the sentinel return of line 104); being a total function of its
inputs, it raises nothing. -/
theorem C8_not_found (spine_files : List (String × List Node)) (query : String)
    (_hq : query ≠ "")
    (habs : ∀ fd ∈ spine_files, ∀ t ∈ textNodes (soupOf fd.2),
      ¬ query.toList <:+: t.toList) :
    traverse_and_trace_query spine_files query = none := by
  unfold traverse_and_trace_query
  apply traverse_aux_none
  intro fd hfd
  cases hft : findText query.toList (soupOf fd.2) with
  | none => rfl
  | some m =>
    obtain ⟨g1, pre, post, g2, g3⟩ := findText_some query.toList (soupOf fd.2) m hft
    have hmem : m.text ∈ textNodes (soupOf fd.2) := by rw [g2]; simp
    have hinf : query.toList <:+: m.text.toList :=
      (infix_iff_findSub _ _).mpr (by rw [g1]; rfl)
    exact absurd hinf (habs fd hfd m.text hmem)

/-- Witness for C8: a query absent from the only document. -/
theorem C8_not_found_witness :
    traverse_and_trace_query [("OEBPS/ch1.xhtml", [Node.elem "p" [Node.text "abc"]])] "zzz" =
      none :=
  C8_not_found [("OEBPS/ch1.xhtml", [Node.elem "p" [Node.text "abc"]])] "zzz"
    (by decide) (by decide)

/-- Claim C9: with the empty query, the locate operation does not report
not-found: Python's `"" in s` is always true, so it matches the very
first text node of the first document and reports
`match_start = match_end = 0`, violating `match_start < match_end`. -/
theorem C9_empty_query (fp : String) (doc : List Node)
    (rest : List (String × List Node))
    (hne : textNodes (soupOf doc) ≠ []) :
    ∃ r m, traverse_and_trace_query ((fp, doc) :: rest) "" = some r ∧
      findText "".toList (soupOf doc) = some m ∧
      (textNodes (soupOf doc)).head? = some m.text ∧
      m.start = 0 ∧
      r.spine_index = 1 ∧ r.matched_file = fp ∧
      r.match_start = 0 ∧ r.match_end = 0 ∧
      ¬ r.match_start < r.match_end := by
  cases hft : findText "".toList (soupOf doc) with
  | none =>
    exfalso
    cases htn : textNodes (soupOf doc) with
    | nil => exact hne htn
    | cons t ts =>
      have h0 := findText_none "".toList (soupOf doc) hft t (by rw [htn]; simp)
      rw [show ("" : String).toList = [] from rfl, findSub_nil_pat] at h0
      simp at h0
  | some m =>
    obtain ⟨g1, pre, post, g2, g3⟩ := findText_some _ _ m hft
    have hpre : pre = [] := by
      cases pre with
      | nil => rfl
      | cons t ts =>
        have h0 := g3 t (by simp)
        rw [show ("" : String).toList = [] from rfl, findSub_nil_pat] at h0
        simp at h0
    subst hpre
    rw [show ("" : String).toList = [] from rfl, findSub_nil_pat] at g1
    injection g1 with g1'
    refine ⟨docResult 1 ((fp, doc) :: rest).length fp doc "" m, m, ?_, rfl, ?_, ?_, rfl, rfl, ?_, ?_, ?_⟩
    · unfold traverse_and_trace_query
      exact traverse_aux_hit ((fp, doc) :: rest).length "" 0 fp doc rest m hft
    · rw [g2]
      rfl
    · omega
    · show m.start = 0
      omega
    · show m.start + ("" : String).length = 0
      rw [show ("" : String).length = 0 from rfl]
      omega
    · show ¬ m.start < m.start + ("" : String).length
      rw [show ("" : String).length = 0 from rfl]
      omega

/-- Witness for C9: empty query on a one-document spine. -/
theorem C9_empty_query_witness :
    ∃ r m,
      traverse_and_trace_query [("OEBPS/ch1.xhtml", [Node.elem "p" [Node.text "abc"]])] "" =
        some r ∧
      findText "".toList (soupOf [Node.elem "p" [Node.text "abc"]]) = some m ∧
      (textNodes (soupOf [Node.elem "p" [Node.text "abc"]])).head? = some m.text ∧
      m.start = 0 ∧
      r.spine_index = 1 ∧ r.matched_file = "OEBPS/ch1.xhtml" ∧
      r.match_start = 0 ∧ r.match_end = 0 ∧
      ¬ r.match_start < r.match_end :=
  C9_empty_query "OEBPS/ch1.xhtml" [Node.elem "p" [Node.text "abc"]] [] (by decide)

/-- Claim C10: every successful locate's ancestor walk ends at the
parser's `[document]` pseudo-root: the element path starts with
`("[document]", 1)` and the numeric file index starts with this
pseudo-root's ordinal 1, because the exclusion (line 82) compares tag
names against the literal `"html"`, which `"[document]"` never equals. -/
theorem C10_pseudo_root (spine_files : List (String × List Node)) (query : String)
    (r : LocateResult)
    (h : traverse_and_trace_query spine_files query = some r) :
    r.element_path.head? = some ("[document]", 1) ∧ r.file_index.head? = some 1 := by
  unfold traverse_and_trace_query at h
  obtain ⟨d, fp, doc, m, h1, h2, h3⟩ :=
    traverse_aux_some spine_files.length query spine_files 0 r h
  subst h3
  constructor
  · rw [docResult_element_path]
    exact walkChain_reverse_head (soupOf doc) _
  · rw [docResult_file_index]
    exact walkIndex_head_soup doc _

/-- Witness for C10 at a concrete two-document locate. -/
theorem C10_pseudo_root_witness :
    ({ spine_index := 2, spine_total := 2, matched_file := "OEBPS/ch2.xhtml",
       element_path := [("[document]", 1), ("div", 1), ("p", 1)],
       file_index := [1, 1, 1], match_start := 6, match_end := 11 } :
         LocateResult).element_path.head? = some ("[document]", 1) ∧
    ({ spine_index := 2, spine_total := 2, matched_file := "OEBPS/ch2.xhtml",
       element_path := [("[document]", 1), ("div", 1), ("p", 1)],
       file_index := [1, 1, 1], match_start := 6, match_end := 11 } :
         LocateResult).file_index.head? = some 1 :=
  C10_pseudo_root
    [("OEBPS/ch1.xhtml", [Node.elem "p" [Node.text "abc"]]),
     ("OEBPS/ch2.xhtml", [Node.elem "div" [Node.elem "p" [Node.text "Hello world"]]])]
    "world" _ rfl

/-- Counterexample to C2 as stated: for a document whose markup has no
`html` element, the locate result has `element_path` and `file_index` of
the same length (2 and 2), not lengths differing by one. -/
theorem C2_counterexample :
    traverse_and_trace_query [("f.xhtml", [Node.elem "div" [Node.text "hello"]])] "hello" =
      some { spine_index := 1, spine_total := 1, matched_file := "f.xhtml",
             element_path := [("[document]", 1), ("div", 1)],
             file_index := [1, 1], match_start := 0, match_end := 5 } ∧
    ¬ (([("[document]", 1), ("div", 1)] : List (String × Nat)).length =
        ([1, 1] : List Nat).length + 1) := by
  constructor
  · rfl
  · decide

/-- Claim C2 (amended): for every successful locate result, the length of
`element_path` exceeds the length of `file_index` by exactly the number
of ancestors whose tag name is the literal `"html"` — so the two lengths
differ by one precisely when the matched node has exactly one ancestor
named `html` (the usual XHTML document shape), not always. -/
theorem C2_amended_path_lengths (spine_files : List (String × List Node)) (query : String)
    (r : LocateResult)
    (h : traverse_and_trace_query spine_files query = some r) :
    r.element_path.length =
      r.file_index.length + r.element_path.countP (fun e => e.1 == "html") := by
  unfold traverse_and_trace_query at h
  obtain ⟨d, fp, doc, m, h1, h2, h3⟩ :=
    traverse_aux_some spine_files.length query spine_files 0 r h
  subst h3
  rw [docResult_element_path, docResult_file_index, walkIndex_eq_filter]
  rw [List.length_map]
  exact length_filter_html _

/-- Witness for the amended C2 at an XHTML-shaped document (one `html`
ancestor): lengths 4 and 3, with one `html` entry. -/
theorem C2_amended_path_lengths_witness :
    ({ spine_index := 1, spine_total := 1, matched_file := "ch.xhtml",
       element_path := [("[document]", 1), ("html", 1), ("body", 1), ("p", 1)],
       file_index := [1, 1, 1], match_start := 0, match_end := 2 } :
         LocateResult).element_path.length =
      ({ spine_index := 1, spine_total := 1, matched_file := "ch.xhtml",
         element_path := [("[document]", 1), ("html", 1), ("body", 1), ("p", 1)],
         file_index := [1, 1, 1], match_start := 0, match_end := 2 } :
           LocateResult).file_index.length +
        ({ spine_index := 1, spine_total := 1, matched_file := "ch.xhtml",
           element_path := [("[document]", 1), ("html", 1), ("body", 1), ("p", 1)],
           file_index := [1, 1, 1], match_start := 0, match_end := 2 } :
             LocateResult).element_path.countP (fun e => e.1 == "html") :=
  C2_amended_path_lengths
    [("ch.xhtml", [Node.elem "html" [Node.elem "body" [Node.elem "p" [Node.text "hi"]]]])]
    "hi" _ rfl

/-- Counterexample to C3 as stated: for a document whose outermost
element is `book`, the code does not exclude the `book` step from the
numeric index (its exclusion tests the literal `"html"`), and the
parser's pseudo-root does appear: `file_index` has both entries, not
`element_path` minus the outermost-named step. -/
theorem C3_counterexample :
    traverse_and_trace_query [("f.xhtml", [Node.elem "book" [Node.text "hi"]])] "hi" =
      some { spine_index := 1, spine_total := 1, matched_file := "f.xhtml",
             element_path := [("[document]", 1), ("book", 1)],
             file_index := [1, 1], match_start := 0, match_end := 2 } ∧
    nodeName (Node.elem "book" [Node.text "hi"]) = "book" ∧
    ¬ (([1, 1] : List Nat).length =
        (([("[document]", 1), ("book", 1)] : List (String × Nat)).filter
          (fun e => e.1 != "book")).length) := by
  refine ⟨rfl, rfl, by decide⟩

/-- Claim C3 (amended): for every successful locate result, `file_index`
is the ordinal sequence of exactly those `element_path` steps whose tag
name is not the literal `"html"` (not the document's outermost element
name), and the parser's `[document]` pseudo-root does appear in it, as
its first entry with ordinal 1. -/
theorem C3_amended_index_path (spine_files : List (String × List Node)) (query : String)
    (r : LocateResult)
    (h : traverse_and_trace_query spine_files query = some r) :
    r.file_index = (r.element_path.filter (fun e => e.1 != "html")).map Prod.snd ∧
    r.file_index.head? = some 1 := by
  unfold traverse_and_trace_query at h
  obtain ⟨d, fp, doc, m, h1, h2, h3⟩ :=
    traverse_aux_some spine_files.length query spine_files 0 r h
  subst h3
  constructor
  · rw [docResult_element_path, docResult_file_index, walkIndex_eq_filter]
  · rw [docResult_file_index]
    exact walkIndex_head_soup doc _

/-- Witness for the amended C3 at the `book`-rooted document. -/
theorem C3_amended_index_path_witness :
    ({ spine_index := 1, spine_total := 1, matched_file := "f.xhtml",
       element_path := [("[document]", 1), ("book", 1)],
       file_index := [1, 1], match_start := 0, match_end := 2 } :
         LocateResult).file_index =
      (({ spine_index := 1, spine_total := 1, matched_file := "f.xhtml",
          element_path := [("[document]", 1), ("book", 1)],
          file_index := [1, 1], match_start := 0, match_end := 2 } :
            LocateResult).element_path.filter (fun e => e.1 != "html")).map Prod.snd ∧
    ({ spine_index := 1, spine_total := 1, matched_file := "f.xhtml",
       element_path := [("[document]", 1), ("book", 1)],
       file_index := [1, 1], match_start := 0, match_end := 2 } :
         LocateResult).file_index.head? = some 1 :=
  C3_amended_index_path [("f.xhtml", [Node.elem "book" [Node.text "hi"]])] "hi" _ rfl

/-- A resolving path still resolves after dropping its last step. -/
theorem validPath_dropLast (n : Node) (p : List Nat)
    (h : validPath n p = true) : validPath n p.dropLast = true := by
  rcases List.eq_nil_or_concat p with rfl | ⟨qq, j, rfl⟩
  · cases n <;> rfl
  · rw [List.concat_eq_append] at h ⊢
    rw [List.dropLast_concat]
    exact validPath_append qq n [j] h

/-- Claim C4: for every matched text node, the returned `element_path`
equals the spec's description of the upward walk: each ancestor of the
text node (from the root of the fragment down to the node's immediate
parent, i.e. the reversal of the walk from the parent up to where no
parent exists) recorded as its tag name with 1-based same-tag sibling
rank (1 + count of preceding siblings sharing the tag name). -/
theorem C4_element_path_spec (spine_files : List (String × List Node)) (query : String)
    (r : LocateResult)
    (h : traverse_and_trace_query spine_files query = some r) :
    ∃ (d : Nat) (fp : String) (doc : List Node) (m : TextMatch),
      spine_files[d]? = some (fp, doc) ∧
      findText query.toList (soupOf doc) = some m ∧
      getNode (soupOf doc) m.path = some (.text m.text) ∧
      r.element_path = specElementPath (soupOf doc) m.path.dropLast := by
  unfold traverse_and_trace_query at h
  obtain ⟨d, fp, doc, m, h1, h2, h3⟩ :=
    traverse_aux_some spine_files.length query spine_files 0 r h
  obtain ⟨hget, hvalid⟩ := findText_path query.toList (soupOf doc) m h2
  refine ⟨d, fp, doc, m, h1, h2, hget, ?_⟩
  subst h3
  rw [docResult_element_path]
  have hcode : codeElementPath (soupOf doc) m.path.dropLast =
      (walkChain (soupOf doc) (m.path.dropLast).reverse).reverse := by
    unfold codeElementPath
    rw [trace_loop_eq]
    simp
  rw [← hcode]
  exact codeElementPath_eq_spec (soupOf doc) m.path.dropLast
    (validPath_dropLast (soupOf doc) m.path hvalid)

/-- Witness for C4 at a concrete locate whose match sits two levels deep. -/
theorem C4_element_path_spec_witness :
    ∃ (d : Nat) (fp : String) (doc : List Node) (m : TextMatch),
      ([("OEBPS/ch1.xhtml", [Node.elem "p" [Node.text "abc"]]),
        ("OEBPS/ch2.xhtml", [Node.elem "div" [Node.elem "p" [Node.text "Hello world"]]])] :
          List (String × List Node))[d]? = some (fp, doc) ∧
      findText "world".toList (soupOf doc) = some m ∧
      getNode (soupOf doc) m.path = some (.text m.text) ∧
      ({ spine_index := 2, spine_total := 2, matched_file := "OEBPS/ch2.xhtml",
         element_path := [("[document]", 1), ("div", 1), ("p", 1)],
         file_index := [1, 1, 1], match_start := 6, match_end := 11 } :
           LocateResult).element_path = specElementPath (soupOf doc) m.path.dropLast :=
  C4_element_path_spec
    [("OEBPS/ch1.xhtml", [Node.elem "p" [Node.text "abc"]]),
     ("OEBPS/ch2.xhtml", [Node.elem "div" [Node.elem "p" [Node.text "Hello world"]]])]
    "world" _ rfl

/-- A tree all of whose text nodes are query-free yields no match. -/
theorem findText_none_of_clean (q : List Char) (n : Node)
    (h : ∀ t ∈ textNodes n, ¬ q <:+: t.toList) : findText q n = none := by
  cases hft : findText q n with
  | none => rfl
  | some m =>
    obtain ⟨g1, pre, post, g2, g3⟩ := findText_some q n m hft
    exact absurd ((infix_iff_findSub _ _).mpr (by rw [g1]; rfl))
      (h m.text (by rw [g2]; simp))

/-- Claim C1: the locate operation scans spine documents strictly in
order and, within a document, text nodes in document order, stopping at
the first text node containing the query; when the query occurs verbatim
in exactly one text node `s` of exactly one spine document, the returned
address names that document (1-based spine position `d + 1`), the query
occurs at offset `match_start` and at no earlier offset of `s`, the
`[match_start, match_end)` slice of `s` is the query, and
`match_end = match_start + length query` (in characters). -/
theorem C1_locate_first_match (spine_files : List (String × List Node)) (query : String)
    (d : Nat) (fp : String) (doc : List Node) (s : String)
    (pre post : List String)
    (_hq : query ≠ "")
    (hd : spine_files[d]? = some (fp, doc))
    (hothers : ∀ (j : Nat) (fd : String × List Node), j ≠ d → spine_files[j]? = some fd →
        ∀ t ∈ textNodes (soupOf fd.2), ¬ query.toList <:+: t.toList)
    (hsplit : textNodes (soupOf doc) = pre ++ s :: post)
    (hpre : ∀ t ∈ pre, ¬ query.toList <:+: t.toList)
    (_hpost : ∀ t ∈ post, ¬ query.toList <:+: t.toList)
    (hs : query.toList <:+: s.toList) :
    ∃ r, traverse_and_trace_query spine_files query = some r ∧
      r.spine_index = d + 1 ∧
      r.spine_total = spine_files.length ∧
      r.matched_file = fp ∧
      query.toList.isPrefixOf (s.toList.drop r.match_start) = true ∧
      (∀ j < r.match_start, query.toList.isPrefixOf (s.toList.drop j) = false) ∧
      (s.toList.drop r.match_start).take query.length = query.toList ∧
      r.match_end = r.match_start + query.length := by
  cases hft : findText query.toList (soupOf doc) with
  | none =>
    exfalso
    have hclean := findText_none query.toList (soupOf doc) hft s (by rw [hsplit]; simp)
    have := (infix_iff_findSub s.toList query.toList).mp hs
    rw [hclean] at this
    simp at this
  | some m =>
    obtain ⟨g1, pre', post', g2, g3⟩ := findText_some query.toList (soupOf doc) m hft
    have hms : s = m.text := by
      apply first_split_unique (fun t => query.toList <:+: t.toList) pre post pre' post' s m.text
      · rw [← hsplit, ← g2]
      · exact hs
      · exact (infix_iff_findSub _ _).mpr (by rw [g1]; rfl)
      · exact hpre
      · intro t ht
        have := g3 t ht
        intro hinf
        have h2 := (infix_iff_findSub t.toList query.toList).mp hinf
        rw [this] at h2
        simp at h2
    subst hms
    have htr : traverse_aux spine_files.length query 0 spine_files =
        some (docResult (0 + d + 1) spine_files.length fp doc query m) := by
      apply traverse_aux_first spine_files d 0 spine_files.length query fp doc m hd
        ?_ hft
      intro j fd hj hfd
      exact findText_none_of_clean query.toList (soupOf fd.2)
        (hothers j fd (by omega) hfd)
    obtain ⟨hpfx, hmin⟩ := findSub_eq_some m.text.toList query.toList m.start g1
    refine ⟨docResult (0 + d + 1) spine_files.length fp doc query m, htr, ?_, rfl, rfl,
      hpfx, hmin, ?_, rfl⟩
    · show 0 + d + 1 = d + 1
      omega
    · show List.take query.length (List.drop m.start m.text.toList) = query.toList
      exact (List.prefix_iff_eq_take.mp (List.isPrefixOf_iff_prefix.mp hpfx)).symm

/-- Witness for C1: `"world"` occurs only in the single text node of the
second of two spine documents, at offsets 6–11. -/
theorem C1_locate_first_match_witness :
    ∃ r, traverse_and_trace_query
        [("OEBPS/ch1.xhtml", [Node.elem "p" [Node.text "abc"]]),
         ("OEBPS/ch2.xhtml", [Node.elem "div" [Node.elem "p" [Node.text "Hello world"]]])]
        "world" = some r ∧
      r.spine_index = 1 + 1 ∧
      r.spine_total = 2 ∧
      r.matched_file = "OEBPS/ch2.xhtml" ∧
      "world".toList.isPrefixOf ("Hello world".toList.drop r.match_start) = true ∧
      (∀ j < r.match_start, "world".toList.isPrefixOf ("Hello world".toList.drop j) = false) ∧
      ("Hello world".toList.drop r.match_start).take "world".length = "world".toList ∧
      r.match_end = r.match_start + "world".length := by
  refine C1_locate_first_match
    [("OEBPS/ch1.xhtml", [Node.elem "p" [Node.text "abc"]]),
     ("OEBPS/ch2.xhtml", [Node.elem "div" [Node.elem "p" [Node.text "Hello world"]]])]
    "world" 1 "OEBPS/ch2.xhtml" [Node.elem "div" [Node.elem "p" [Node.text "Hello world"]]]
    "Hello world" [] [] (by decide) rfl ?_ rfl (by decide) (by decide) (by decide)
  intro j fd hj hfd
  match j with
  | 0 =>
    rw [List.getElem?_cons_zero] at hfd
    injection hfd with h0
    subst h0
    decide
  | 1 => exact absurd rfl hj
  | n + 2 =>
    rw [List.getElem?_cons_succ, List.getElem?_cons_succ] at hfd
    simp at hfd
